import Mathlib

/-
Verification of the Chan-theory structural pipeline of this repository.

Shallow embedding conventions:
* Python floats are modelled as exact rationals (ℚ); `round(x, 2)` is
  modelled as round-half-to-even on rationals.
* Python datetimes are modelled as rational time stamps (only equality
  and ordering of time stamps matter to the verified code paths).
* Python lists are Lean `List`s; the two `while` loops of the center
  detector are written with an explicit fuel argument equal to the list
  length, which bounds the number of iterations of the source loops
  (their index strictly increases on every iteration).
-/

/-- Trend flag from chan/common.py (`Trend` enum: UP / DOWN / NONE). -/
inductive Trend where
  | up
  | down
  | none
deriving DecidableEq, Repr

/-- Fractal kind from chan/common.py (`FXType` enum: TOP / BOTTOM). -/
inductive FXType where
  | top
  | bottom
deriving DecidableEq, Repr

/-- Raw price bar, from datafeed/base.py `PriceBar` (volume unused by the
merger and omitted). -/
structure PriceBar where
  date : ℚ
  open_ : ℚ
  high : ℚ
  low : ℚ
  close : ℚ
deriving DecidableEq, Repr

/-- Merged bar, from chan/common.py `ChanBar`. -/
structure ChanBar where
  index : ℕ
  date : ℚ
  high : ℚ
  low : ℚ
  open_ : ℚ
  close : ℚ
  elements : List ℕ
deriving DecidableEq, Repr

/-- Containment test of chan/k_merge.py line 47: one bar's range contains
the other's (`raw` and `prev` given by their high/low). -/
def isIncl (rh rl ph pl : ℚ) : Prop :=
  (rh ≤ ph ∧ rl ≥ pl) ∨ (ph ≤ rh ∧ pl ≥ rl)

instance isIncl.dec (rh rl ph pl : ℚ) : Decidable (isIncl rh rl ph pl) := by
  unfold isIncl; infer_instance

/-- Loop body of `merge_klines` (chan/k_merge.py lines 39-88), processing the
remaining raw bars; `i` is the index of the next raw bar, `cur` the currently
open merged bar (the Python code mutates the list tail in place; here the
tail is threaded through the recursion and emitted once it can no longer
change). -/
def mergeLoop : Trend → ChanBar → ℕ → List PriceBar → List ChanBar
  | _, cur, _, [] => [cur]
  | trend, cur, i, raw :: rest =>
    if isIncl raw.high raw.low cur.high cur.low then
      mergeLoop trend
        { cur with
          high := if trend = Trend.up then max cur.high raw.high else min cur.high raw.high,
          low := if trend = Trend.up then max cur.low raw.low else min cur.low raw.low,
          date := raw.date, close := raw.close, index := i,
          elements := cur.elements ++ [i] }
        (i + 1) rest
    else
      cur ::
        mergeLoop
          (if raw.high > cur.high ∧ raw.low > cur.low then Trend.up
           else if raw.high < cur.high ∧ raw.low < cur.low then Trend.down
           else trend)
          ⟨i, raw.date, raw.high, raw.low, raw.open_, raw.close, [i]⟩
          (i + 1) rest

/-- `merge_klines` from chan/k_merge.py: fewer than 2 bars yield `[]`;
otherwise the first bar opens the merged sequence and the rest are folded
in starting from trend UP. -/
def merge_klines (bars : List PriceBar) : List ChanBar :=
  match bars with
  | [] => []
  | [_] => []
  | b0 :: rest =>
    mergeLoop Trend.up ⟨0, b0.date, b0.high, b0.low, b0.open_, b0.close, [0]⟩ 1 rest

/-- Claim C10: fewer than 2 input bars produce the empty merged list. -/
theorem merge_klines_short (bars : List PriceBar) (h : bars.length < 2) :
    merge_klines bars = [] := by
  match bars with
  | [] => rfl
  | [_] => rfl
  | _ :: _ :: _ => exact absurd h (by simp)

/-- Witness for C10 at a concrete one-bar input. -/
theorem merge_klines_short_witness :
    [(⟨0, 1, 2, 1, 2⟩ : PriceBar)].length < 2 ∧
      merge_klines [(⟨0, 1, 2, 1, 2⟩ : PriceBar)] = [] :=
  ⟨by decide, merge_klines_short [⟨0, 1, 2, 1, 2⟩] (by decide)⟩

/-- Claim C6: one merge step.  If the new bar and the current merged bar are
mutually containing, under an UP trend the fold keeps the larger of the highs
and the larger of the lows, under a DOWN trend the smaller of each; otherwise
the trend becomes UP iff the new bar's high and low both exceed the current
merged bar's, DOWN iff both are lower, is left unchanged otherwise, and the
bar is appended as a fresh merged bar. -/
theorem mergeStep_spec (trend : Trend) (cur : ChanBar) (i : ℕ) (raw : PriceBar)
    (rest : List PriceBar) :
    (isIncl raw.high raw.low cur.high cur.low → trend = Trend.up →
      mergeLoop trend cur i (raw :: rest) =
        mergeLoop trend
          { cur with
            high := max cur.high raw.high, low := max cur.low raw.low,
            date := raw.date, close := raw.close, index := i,
            elements := cur.elements ++ [i] } (i + 1) rest)
    ∧ (isIncl raw.high raw.low cur.high cur.low → trend = Trend.down →
      mergeLoop trend cur i (raw :: rest) =
        mergeLoop trend
          { cur with
            high := min cur.high raw.high, low := min cur.low raw.low,
            date := raw.date, close := raw.close, index := i,
            elements := cur.elements ++ [i] } (i + 1) rest)
    ∧ (¬ isIncl raw.high raw.low cur.high cur.low →
      mergeLoop trend cur i (raw :: rest) =
        cur ::
          mergeLoop
            (if raw.high > cur.high ∧ raw.low > cur.low then Trend.up
             else if raw.high < cur.high ∧ raw.low < cur.low then Trend.down
             else trend)
            ⟨i, raw.date, raw.high, raw.low, raw.open_, raw.close, [i]⟩
            (i + 1) rest) := by
  refine ⟨?_, ?_, ?_⟩
  · intro hincl htrend
    subst htrend
    simp [mergeLoop, hincl]
  · intro hincl htrend
    subst htrend
    simp [mergeLoop, hincl]
  · intro hincl
    simp [mergeLoop, hincl]

/-- Witness for C6: a concrete containing step under an UP trend. -/
theorem mergeStep_spec_witness :
    isIncl (5 : ℚ) 2 6 1 ∧
      mergeLoop Trend.up ⟨0, 0, 6, 1, 3, 4, [0]⟩ 1 [⟨1, 3, 5, 2, 4⟩] =
        mergeLoop Trend.up
          { (⟨0, 0, 6, 1, 3, 4, [0]⟩ : ChanBar) with
            high := max 6 5, low := max 1 2, date := 1, close := 4,
            index := 1, elements := [0] ++ [1] } 2 [] :=
  ⟨by decide,
    (mergeStep_spec Trend.up ⟨0, 0, 6, 1, 3, 4, [0]⟩ 1 ⟨1, 3, 5, 2, 4⟩ []).1
      (by decide) rfl⟩

/-- Strict dominance between two consecutive merged bars: the later one has
both a strictly higher high and low, or both strictly lower. -/
def domRel (a b : ChanBar) : Prop :=
  (a.high < b.high ∧ a.low < b.low) ∨ (b.high < a.high ∧ b.low < a.low)

/-- A non-containing pair of bars is strictly ordered on both extremes. -/
theorem not_incl_cases {rh rl ph pl : ℚ} (h : ¬ isIncl rh rl ph pl) :
    (ph < rh ∧ pl < rl) ∨ (rh < ph ∧ rl < pl) := by
  unfold isIncl at h
  push_neg at h
  obtain ⟨h1, h2⟩ := h
  rcases lt_or_le ph rh with hc | hc
  · exact Or.inl ⟨hc, h2 (le_of_lt hc)⟩
  · rcases lt_or_le rh ph with hd | hd
    · exact Or.inr ⟨hd, h1 (le_of_lt hd)⟩
    · exact absurd (h1 hc) (not_lt.mpr (le_of_lt (h2 hd)))

/-- Structural invariant of the merge loop: the head of the produced list is
the final state of `cur` (moved only upward under an UP trend, only downward
otherwise), and all consecutive produced bars strictly dominate one another. -/
theorem mergeLoop_spec (l : List PriceBar) :
    ∀ (trend : Trend) (cur : ChanBar) (i : ℕ),
      ∃ h t, mergeLoop trend cur i l = h :: t
        ∧ (trend = Trend.up → cur.high ≤ h.high ∧ cur.low ≤ h.low)
        ∧ (trend ≠ Trend.up → h.high ≤ cur.high ∧ h.low ≤ cur.low)
        ∧ List.Chain' domRel (h :: t) := by
  induction l with
  | nil =>
    intro trend cur i
    exact ⟨cur, [], rfl, fun _ => ⟨le_refl _, le_refl _⟩,
      fun _ => ⟨le_refl _, le_refl _⟩, List.chain'_singleton cur⟩
  | cons raw rest ih =>
    intro trend cur i
    by_cases hincl : isIncl raw.high raw.low cur.high cur.low
    · obtain ⟨h, t, heq, hup, hdown, hchain⟩ := ih trend
        { cur with
          high := if trend = Trend.up then max cur.high raw.high else min cur.high raw.high,
          low := if trend = Trend.up then max cur.low raw.low else min cur.low raw.low,
          date := raw.date, close := raw.close, index := i,
          elements := cur.elements ++ [i] } (i + 1)
      refine ⟨h, t, ?_, ?_, ?_, hchain⟩
      · simp [mergeLoop, hincl, heq]
      · intro htr
        have := hup htr
        simp only [htr, if_pos rfl] at this
        exact ⟨le_trans (le_max_left _ _) this.1, le_trans (le_max_left _ _) this.2⟩
      · intro htr
        have := hdown htr
        simp only [if_neg htr] at this
        exact ⟨le_trans this.1 (min_le_left _ _), le_trans this.2 (min_le_left _ _)⟩
    · rcases not_incl_cases hincl with hcase | hcase
      · -- the new bar strictly dominates upward: trend becomes UP
        have htr : (if raw.high > cur.high ∧ raw.low > cur.low then Trend.up
            else if raw.high < cur.high ∧ raw.low < cur.low then Trend.down
            else trend) = Trend.up := by
          simp [hcase.1, hcase.2]
        obtain ⟨h, t, heq, hup, hdown, hchain⟩ :=
          ih Trend.up ⟨i, raw.date, raw.high, raw.low, raw.open_, raw.close, [i]⟩ (i + 1)
        have hb := hup rfl
        refine ⟨cur, h :: t, ?_, fun _ => ⟨le_refl _, le_refl _⟩,
          fun _ => ⟨le_refl _, le_refl _⟩, ?_⟩
        · simp only [mergeLoop, if_neg hincl, htr, heq]
        · exact List.Chain'.cons
            (Or.inl ⟨lt_of_lt_of_le hcase.1 hb.1, lt_of_lt_of_le hcase.2 hb.2⟩) hchain
      · -- the new bar is strictly lower on both extremes: trend becomes DOWN
        have htr : (if raw.high > cur.high ∧ raw.low > cur.low then Trend.up
            else if raw.high < cur.high ∧ raw.low < cur.low then Trend.down
            else trend) = Trend.down := by
          have hx : ¬ (raw.high > cur.high ∧ raw.low > cur.low) := by
            intro hx; exact absurd hx.1 (not_lt.mpr (le_of_lt hcase.1))
          simp [hx, hcase.1, hcase.2]
        obtain ⟨h, t, heq, hup, hdown, hchain⟩ :=
          ih Trend.down ⟨i, raw.date, raw.high, raw.low, raw.open_, raw.close, [i]⟩ (i + 1)
        have hb := hdown (by decide)
        refine ⟨cur, h :: t, ?_, fun _ => ⟨le_refl _, le_refl _⟩,
          fun _ => ⟨le_refl _, le_refl _⟩, ?_⟩
        · simp only [mergeLoop, if_neg hincl, htr, heq]
        · exact List.Chain'.cons
            (Or.inr ⟨lt_of_le_of_lt hb.1 hcase.1, lt_of_le_of_lt hb.2 hcase.2⟩) hchain

/-- Strictly dominating adjacent bars are in particular not mutually
containing (in either direction). -/
theorem domRel_not_incl {a b : ChanBar} (h : domRel a b) :
    ¬ isIncl b.high b.low a.high a.low := by
  intro hx
  rcases h with ⟨h1, h2⟩ | ⟨h1, h2⟩ <;> rcases hx with ⟨hx1, hx2⟩ | ⟨hx1, hx2⟩ <;>
    simp only [ge_iff_le] at hx2 <;> linarith

/-- Projection of a merged bar back to a raw price bar (the idempotence
property feeds the merger with its own output through this). -/
def chanToPrice (c : ChanBar) : PriceBar :=
  ⟨c.date, c.open_, c.high, c.low, c.close⟩

/-- If every pending merged-bar (read back as a raw bar) fails containment
against its predecessor, starting from the open bar `cur` (which agrees with
`o` on high/low), the merge loop appends every pending bar: no merge. -/
theorem mergeLoop_rerun (l : List ChanBar) :
    ∀ (trend : Trend) (o cur : ChanBar) (i : ℕ),
      cur.high = o.high → cur.low = o.low →
      List.Chain (fun a b : ChanBar => ¬ isIncl b.high b.low a.high a.low) o l →
      (mergeLoop trend cur i (l.map chanToPrice)).length = l.length + 1 := by
  induction l with
  | nil => intro trend o cur i _ _ _; rfl
  | cons b rest ih =>
    intro trend o cur i hh hl hchain
    rw [List.chain_cons] at hchain
    have hni : ¬ isIncl (chanToPrice b).high (chanToPrice b).low cur.high cur.low := by
      rw [hh, hl]; exact hchain.1
    rw [List.map_cons]
    simp only [mergeLoop, if_neg hni, List.length_cons]
    rw [ih _ b ⟨i, (chanToPrice b).date, (chanToPrice b).high, (chanToPrice b).low,
      (chanToPrice b).open_, (chanToPrice b).close, [i]⟩ (i + 1) rfl rfl hchain.2]

/-- Claim C4: the Inclusion Merger is idempotent.  No two adjacent merged
bars are mutually containing, and consequently re-running `merge_klines` on
its own output (each merged bar read back as a raw bar) performs no merge:
the number of merged bars is preserved. -/
theorem merge_klines_idempotent (bars : List PriceBar) :
    List.Chain' (fun a b : ChanBar => ¬ isIncl b.high b.low a.high a.low)
      (merge_klines bars)
    ∧ (2 ≤ (merge_klines bars).length →
        (merge_klines ((merge_klines bars).map chanToPrice)).length =
          (merge_klines bars).length) := by
  have hchain : List.Chain' (fun a b : ChanBar => ¬ isIncl b.high b.low a.high a.low)
      (merge_klines bars) := by
    match bars with
    | [] => exact List.chain'_nil
    | [_] => exact List.chain'_nil
    | b0 :: b1 :: rest =>
      obtain ⟨h, t, heq, _, _, hc⟩ :=
        mergeLoop_spec (b1 :: rest) Trend.up
          ⟨0, b0.date, b0.high, b0.low, b0.open_, b0.close, [0]⟩ 1
      show List.Chain' _ (mergeLoop Trend.up
        ⟨0, b0.date, b0.high, b0.low, b0.open_, b0.close, [0]⟩ 1 (b1 :: rest))
      rw [heq]
      exact List.Chain'.imp (fun a b hab => domRel_not_incl hab) hc
  refine ⟨hchain, ?_⟩
  intro hlen
  match hout : merge_klines bars with
  | [] => rw [hout] at hlen; simp at hlen
  | [_] => rw [hout] at hlen; simp at hlen
  | o0 :: o1 :: orest =>
    rw [hout] at hchain
    have hc : List.Chain (fun a b : ChanBar => ¬ isIncl b.high b.low a.high a.low)
        o0 (o1 :: orest) := hchain
    have hred : merge_klines ((o0 :: o1 :: orest).map chanToPrice) =
        mergeLoop Trend.up
          ⟨0, (chanToPrice o0).date, (chanToPrice o0).high, (chanToPrice o0).low,
            (chanToPrice o0).open_, (chanToPrice o0).close, [0]⟩ 1
          ((o1 :: orest).map chanToPrice) := rfl
    rw [hred, mergeLoop_rerun (o1 :: orest) Trend.up o0
      ⟨0, (chanToPrice o0).date, (chanToPrice o0).high, (chanToPrice o0).low,
        (chanToPrice o0).open_, (chanToPrice o0).close, [0]⟩ 1 rfl rfl hc]
    simp

/-- Concrete two-bar input for the idempotence witness. -/
def exC4 : List PriceBar := [⟨0, 8, 10, 5, 9⟩, ⟨1, 9, 12, 6, 11⟩]

/-- Witness for C4: a concrete run whose merged output has length 2 and
re-merging changes nothing. -/
theorem merge_klines_idempotent_witness :
    2 ≤ (merge_klines exC4).length ∧
      (merge_klines ((merge_klines exC4).map chanToPrice)).length =
        (merge_klines exC4).length :=
  ⟨by decide, (merge_klines_idempotent exC4).2 (by decide)⟩

/-- Fractal (Fen Xing) from chan/common.py.  `index` is a Python int and is
modelled as ℤ (the stroke builder subtracts indices). -/
structure Fractal where
  type : FXType
  index : ℤ
  price : ℚ
  high : ℚ
  low : ℚ
  date : ℚ
deriving DecidableEq, Repr

/-- Default merged bar used for out-of-range list reads (reads below are
always guarded by range conditions). -/
def dChanBar : ChanBar := ⟨0, 0, 0, 0, 0, 0, []⟩

/-- TOP condition of chan/fractal.py lines 20-21: the middle bar's high AND
low are strictly above both neighbours'. -/
def topCond (bars : List ChanBar) (i : ℕ) : Prop :=
  (bars.getD i dChanBar).high > (bars.getD (i - 1) dChanBar).high ∧
  (bars.getD i dChanBar).high > (bars.getD (i + 1) dChanBar).high ∧
  (bars.getD i dChanBar).low > (bars.getD (i - 1) dChanBar).low ∧
  (bars.getD i dChanBar).low > (bars.getD (i + 1) dChanBar).low

/-- BOTTOM condition of chan/fractal.py lines 32-33 (mirrored, both strictly
below). -/
def botCond (bars : List ChanBar) (i : ℕ) : Prop :=
  (bars.getD i dChanBar).low < (bars.getD (i - 1) dChanBar).low ∧
  (bars.getD i dChanBar).low < (bars.getD (i + 1) dChanBar).low ∧
  (bars.getD i dChanBar).high < (bars.getD (i - 1) dChanBar).high ∧
  (bars.getD i dChanBar).high < (bars.getD (i + 1) dChanBar).high

instance topCond.dec (bars : List ChanBar) (i : ℕ) : Decidable (topCond bars i) := by
  unfold topCond; infer_instance

instance botCond.dec (bars : List ChanBar) (i : ℕ) : Decidable (botCond bars i) := by
  unfold botCond; infer_instance

/-- Body of the `find_fractals` scan (chan/fractal.py lines 14-41) at
interior position `i`; BOTTOM is only tested when TOP fails (elif). -/
def fractalAt (bars : List ChanBar) (i : ℕ) : Option Fractal :=
  if topCond bars i then
    some ⟨FXType.top, (i : ℤ), (bars.getD i dChanBar).high,
      (bars.getD i dChanBar).high, (bars.getD i dChanBar).low, (bars.getD i dChanBar).date⟩
  else if botCond bars i then
    some ⟨FXType.bottom, (i : ℤ), (bars.getD i dChanBar).low,
      (bars.getD i dChanBar).high, (bars.getD i dChanBar).low, (bars.getD i dChanBar).date⟩
  else
    Option.none

/-- `find_fractals` from chan/fractal.py: scan the interior positions
`1 .. len-2` in order. -/
def find_fractals (bars : List ChanBar) : List Fractal :=
  if bars.length < 3 then []
  else ((List.range (bars.length - 2)).map (fun k => k + 1)).filterMap (fractalAt bars)

/-- Fractal record of the inline scan in
strategy/chan_core.py `ChanTheorySignalDetector._identify_bis` (a Python
dict with keys index/type/price/time/orig_index). -/
structure CFractal where
  index : ℕ
  ty : String
  price : ℚ
  time : ℚ
  orig_index : ℕ
deriving DecidableEq, Repr

/-- TOP condition of the inline scan in chan_core.py line 251: only the two
high comparisons are tested. -/
def coreTopCond (bars : List ChanBar) (i : ℕ) : Prop :=
  (bars.getD i dChanBar).high > (bars.getD (i - 1) dChanBar).high ∧
  (bars.getD i dChanBar).high > (bars.getD (i + 1) dChanBar).high

/-- BOTTOM condition of the inline scan in chan_core.py line 253: only the
two low comparisons are tested. -/
def coreBotCond (bars : List ChanBar) (i : ℕ) : Prop :=
  (bars.getD i dChanBar).low < (bars.getD (i - 1) dChanBar).low ∧
  (bars.getD i dChanBar).low < (bars.getD (i + 1) dChanBar).low

instance coreTopCond.dec (bars : List ChanBar) (i : ℕ) : Decidable (coreTopCond bars i) := by
  unfold coreTopCond; infer_instance

instance coreBotCond.dec (bars : List ChanBar) (i : ℕ) : Decidable (coreBotCond bars i) := by
  unfold coreBotCond; infer_instance

/-- Body of the inline fractal scan of chan_core.py lines 246-254. -/
def coreFractalAt (bars : List ChanBar) (i : ℕ) : Option CFractal :=
  if coreTopCond bars i then
    some ⟨i, "top", (bars.getD i dChanBar).high, (bars.getD i dChanBar).date,
      (bars.getD i dChanBar).index⟩
  else if coreBotCond bars i then
    some ⟨i, "bottom", (bars.getD i dChanBar).low, (bars.getD i dChanBar).date,
      (bars.getD i dChanBar).index⟩
  else
    Option.none

/-- The inline fractal scan of `_identify_bis` over interior positions. -/
def identifyFractals (bars : List ChanBar) : List CFractal :=
  ((List.range (bars.length - 2)).map (fun k => k + 1)).filterMap (coreFractalAt bars)

/-- Any fractal produced by `fractalAt bars j` records index `j`. -/
theorem fractalAt_index {bars : List ChanBar} {j : ℕ} {f : Fractal}
    (h : fractalAt bars j = some f) : f.index = (j : ℤ) := by
  unfold fractalAt at h
  split_ifs at h
  · injection h with h2; exact h2 ▸ rfl
  · injection h with h2; exact h2 ▸ rfl

/-- Any fractal produced by `coreFractalAt bars j` records index `j`. -/
theorem coreFractalAt_index {bars : List ChanBar} {j : ℕ} {f : CFractal}
    (h : coreFractalAt bars j = some f) : f.index = j := by
  unfold coreFractalAt at h
  split_ifs at h
  · injection h with h2; exact h2 ▸ rfl
  · injection h with h2; exact h2 ▸ rfl

/-- Indexed membership in `find_fractals` reduces to the scan body at that
interior index. -/
theorem mem_find_fractals_iff (bars : List ChanBar) (i : ℕ) (P : Fractal → Prop)
    (h1 : 1 ≤ i) (h2 : i + 1 < bars.length) :
    (∃ f, f ∈ find_fractals bars ∧ f.index = (i : ℤ) ∧ P f) ↔
      (∃ f, fractalAt bars i = some f ∧ P f) := by
  constructor
  · rintro ⟨f, hmem, hidx, hP⟩
    unfold find_fractals at hmem
    rw [if_neg (by omega)] at hmem
    rw [List.mem_filterMap] at hmem
    obtain ⟨a, _, hfa⟩ := hmem
    have hai : f.index = (a : ℤ) := fractalAt_index hfa
    have hcast : (a : ℤ) = (i : ℤ) := by rw [← hai, hidx]
    have : a = i := by exact_mod_cast hcast
    subst this
    exact ⟨f, hfa, hP⟩
  · rintro ⟨f, hfa, hP⟩
    refine ⟨f, ?_, fractalAt_index hfa, hP⟩
    unfold find_fractals
    rw [if_neg (by omega)]
    rw [List.mem_filterMap]
    refine ⟨i, ?_, hfa⟩
    rw [List.mem_map]
    exact ⟨i - 1, by rw [List.mem_range]; omega, by omega⟩

/-- Indexed membership in the inline scan reduces to its body at that
interior index. -/
theorem mem_identifyFractals_iff (bars : List ChanBar) (i : ℕ) (P : CFractal → Prop)
    (h1 : 1 ≤ i) (h2 : i + 1 < bars.length) :
    (∃ f, f ∈ identifyFractals bars ∧ f.index = i ∧ P f) ↔
      (∃ f, coreFractalAt bars i = some f ∧ P f) := by
  constructor
  · rintro ⟨f, hmem, hidx, hP⟩
    unfold identifyFractals at hmem
    rw [List.mem_filterMap] at hmem
    obtain ⟨a, _, hfa⟩ := hmem
    have hai : f.index = a := coreFractalAt_index hfa
    have : a = i := by rw [← hai, hidx]
    subst this
    exact ⟨f, hfa, hP⟩
  · rintro ⟨f, hfa, hP⟩
    refine ⟨f, ?_, coreFractalAt_index hfa, hP⟩
    unfold identifyFractals
    rw [List.mem_filterMap]
    refine ⟨i, ?_, hfa⟩
    rw [List.mem_map]
    exact ⟨i - 1, by rw [List.mem_range]; omega, by omega⟩

/-- The TOP and BOTTOM conditions of `find_fractals` are incompatible. -/
theorem topCond_botCond_absurd {bars : List ChanBar} {i : ℕ}
    (ht : topCond bars i) (hb : botCond bars i) : False := by
  unfold topCond at ht
  unfold botCond at hb
  linarith [ht.1, hb.1]

/-- Claim C5, amended.  The standalone Fractal Detector `find_fractals`
emits a TOP at interior index `i` iff all four strict high/low comparisons
hold, and a BOTTOM iff the mirrored four hold (ties produce nothing).  The
inline fractal scan of `_identify_bis`, however, emits a TOP iff only the
two high comparisons hold, and a BOTTOM iff the TOP test fails and the two
low comparisons hold. -/
theorem fractal_detector_iff :
    (∀ (bars : List ChanBar) (i : ℕ), 1 ≤ i → i + 1 < bars.length →
      ((∃ f, f ∈ find_fractals bars ∧ f.index = (i : ℤ) ∧ f.type = FXType.top) ↔
        topCond bars i)
      ∧ ((∃ f, f ∈ find_fractals bars ∧ f.index = (i : ℤ) ∧ f.type = FXType.bottom) ↔
        botCond bars i))
    ∧ (∀ (bars : List ChanBar) (i : ℕ), 1 ≤ i → i + 1 < bars.length →
      ((∃ f, f ∈ identifyFractals bars ∧ f.index = i ∧ f.ty = "top") ↔
        coreTopCond bars i)
      ∧ ((∃ f, f ∈ identifyFractals bars ∧ f.index = i ∧ f.ty = "bottom") ↔
        (¬ coreTopCond bars i ∧ coreBotCond bars i))) := by
  constructor
  · intro bars i h1 h2
    constructor
    · rw [mem_find_fractals_iff bars i _ h1 h2]
      unfold fractalAt
      split_ifs with hA hB
      · simp only [Option.some_inj]
        exact ⟨fun _ => hA, fun _ => ⟨_, rfl, rfl⟩⟩
      · constructor
        · rintro ⟨f, hf, htype⟩
          injection hf with h3
          rw [← h3] at htype
          simp at htype
        · intro hc; exact absurd hc hA
      · constructor
        · rintro ⟨f, hf, _⟩; simp at hf
        · intro hc; exact absurd hc hA
    · rw [mem_find_fractals_iff bars i _ h1 h2]
      unfold fractalAt
      split_ifs with hA hB
      · constructor
        · rintro ⟨f, hf, htype⟩
          injection hf with h3
          rw [← h3] at htype
          simp at htype
        · intro hc; exact absurd (topCond_botCond_absurd hA hc) id
      · simp only [Option.some_inj]
        exact ⟨fun _ => hB, fun _ => ⟨_, rfl, rfl⟩⟩
      · constructor
        · rintro ⟨f, hf, _⟩; simp at hf
        · intro hc; exact absurd hc hB
  · intro bars i h1 h2
    constructor
    · rw [mem_identifyFractals_iff bars i _ h1 h2]
      unfold coreFractalAt
      split_ifs with hA hB
      · simp only [Option.some_inj]
        exact ⟨fun _ => hA, fun _ => ⟨_, rfl, rfl⟩⟩
      · constructor
        · rintro ⟨f, hf, htype⟩
          injection hf with h3
          rw [← h3] at htype
          simp at htype
        · intro hc; exact absurd hc hA
      · constructor
        · rintro ⟨f, hf, _⟩; simp at hf
        · intro hc; exact absurd hc hA
    · rw [mem_identifyFractals_iff bars i _ h1 h2]
      unfold coreFractalAt
      split_ifs with hA hB
      · constructor
        · rintro ⟨f, hf, htype⟩
          injection hf with h3
          rw [← h3] at htype
          simp at htype
        · rintro ⟨hna, _⟩; exact absurd hA hna
      · simp only [Option.some_inj]
        exact ⟨fun _ => ⟨hA, hB⟩, fun _ => ⟨_, rfl, rfl⟩⟩
      · constructor
        · rintro ⟨f, hf, _⟩; simp at hf
        · rintro ⟨_, hc⟩; exact absurd hc hB

/-- Concrete three merged bars on which the inline scan of `_identify_bis`
emits a TOP although the middle bar's low does not dominate its
neighbours'. -/
def exC5 : List ChanBar :=
  [⟨0, 0, 10, 5, 7, 8, [0]⟩, ⟨1, 1, 12, 4, 7, 8, [1]⟩, ⟨2, 2, 10, 5, 7, 8, [2]⟩]

/-- Counterexample for C5: the claimed iff (TOP requires all four strict
comparisons) is false for the cited inline fractal scan — at interior index 1
of `exC5` a TOP is emitted even though the middle low is below both
neighbouring lows. -/
theorem fractal_detector_counterexample :
    (∃ f, f ∈ identifyFractals exC5 ∧ f.index = 1 ∧ f.ty = "top")
    ∧ ¬ ((exC5.getD 1 dChanBar).low > (exC5.getD 0 dChanBar).low ∧
         (exC5.getD 1 dChanBar).low > (exC5.getD 2 dChanBar).low) := by
  constructor
  · exact ⟨⟨1, "top", 12, 1, 1⟩, by decide, rfl, rfl⟩
  · decide

/-- Witness for C5 at a concrete input: on `exC5` the standalone detector
finds no TOP at index 1 (the low test fails) while the inline scan does. -/
theorem fractal_detector_iff_witness :
    (1 ≤ 1 ∧ 1 + 1 < exC5.length)
    ∧ ¬ topCond exC5 1
    ∧ ¬ (∃ f, f ∈ find_fractals exC5 ∧ f.index = ((1 : ℕ) : ℤ) ∧ f.type = FXType.top)
    ∧ coreTopCond exC5 1
    ∧ (∃ f, f ∈ identifyFractals exC5 ∧ f.index = 1 ∧ f.ty = "top") := by
  refine ⟨⟨by decide, by decide⟩, by decide, ?_, by decide, ?_⟩
  · rw [(fractal_detector_iff.1 exC5 1 (by decide) (by decide)).1]
    decide
  · rw [(fractal_detector_iff.2 exC5 1 (by decide) (by decide)).1]
    decide

/-- Stroke (Bi) from chan/common.py; the `type` field receives a `Trend`
value at the construction sites in `find_bi` (the momentum fields are not
used by the stroke builder itself and are omitted here). -/
structure Bi where
  start_fx : Fractal
  end_fx : Fractal
  type : Trend
deriving DecidableEq, Repr

/-- Derived direction of a stroke (chan/common.py `Bi.direction`). -/
def Bi.direction (b : Bi) : Trend :=
  if b.start_fx.type = FXType.bottom ∧ b.end_fx.type = FXType.top then Trend.up
  else if b.start_fx.type = FXType.top ∧ b.end_fx.type = FXType.bottom then Trend.down
  else Trend.none

/-- Derived high of a stroke (chan/common.py `Bi.high`). -/
def Bi.high (b : Bi) : ℚ := max b.start_fx.high b.end_fx.high

/-- Derived low of a stroke (chan/common.py `Bi.low`). -/
def Bi.low (b : Bi) : ℚ := min b.start_fx.low b.end_fx.low

/-- Loop of `find_bi` (chan/bi.py lines 64-102): the anchor fractal is
replaced by a strictly more extreme same-kind fractal; an opposite-kind
fractal closes a stroke when the index gap is at least 4 and the price
ordering is possible, and then becomes the new anchor. -/
def biLoop : Fractal → List Fractal → List Bi
  | _, [] => []
  | anchor, fx :: rest =>
    if fx.type = anchor.type then
      (if fx.type = FXType.top then
        (if fx.high > anchor.high then biLoop fx rest else biLoop anchor rest)
       else
        (if fx.low < anchor.low then biLoop fx rest else biLoop anchor rest))
    else if fx.index - anchor.index < 4 then biLoop anchor rest
    else if anchor.type = FXType.bottom ∧ fx.type = FXType.top then
      (if fx.high ≤ anchor.low then biLoop anchor rest
       else ⟨anchor, fx, Trend.up⟩ :: biLoop fx rest)
    else if anchor.type = FXType.top ∧ fx.type = FXType.bottom then
      (if fx.low ≥ anchor.high then biLoop anchor rest
       else ⟨anchor, fx, Trend.down⟩ :: biLoop fx rest)
    else biLoop anchor rest

/-- `find_bi` from chan/bi.py (its `bars` argument is unused by the
source function as well). -/
def find_bi (bars : List ChanBar) (fractals : List Fractal) : List Bi :=
  match bars, fractals with
  | _, [] => []
  | _, f0 :: rest => biLoop f0 rest

/-- `f` descends from the anchor `a`: same kind, and at least as extreme
(the anchor only ever moves to strictly more extreme same-kind fractals). -/
def ancDesc (a f : Fractal) : Prop :=
  f.type = a.type
  ∧ (a.type = FXType.top → a.high ≤ f.high)
  ∧ (a.type = FXType.bottom → f.low ≤ a.low)

theorem ancDesc_refl (a : Fractal) : ancDesc a a :=
  ⟨rfl, fun _ => le_refl _, fun _ => le_refl _⟩

theorem ancDesc_trans {a m f : Fractal} (h1 : ancDesc a m) (h2 : ancDesc m f) :
    ancDesc a f := by
  obtain ⟨t1, hi1, lo1⟩ := h1
  obtain ⟨t2, hi2, lo2⟩ := h2
  refine ⟨t2.trans t1, ?_, ?_⟩
  · intro ht; exact le_trans (hi1 ht) (hi2 (t1.trans ht))
  · intro hb; exact le_trans (lo2 (t1.trans hb)) (lo1 hb)

/-- Invariant of the stroke-builder loop: consecutive emitted strokes are
linked by `ancDesc` (the later start descends from the earlier end), and the
first emitted stroke's start descends from the current anchor. -/
theorem biLoop_inv (l : List Fractal) :
    ∀ anchor : Fractal,
      List.Chain' (fun b1 b2 : Bi => ancDesc b1.end_fx b2.start_fx) (biLoop anchor l)
      ∧ (∀ b, (biLoop anchor l).head? = some b → ancDesc anchor b.start_fx) := by
  induction l with
  | nil => intro anchor; exact ⟨List.chain'_nil, fun b hb => Option.noConfusion hb⟩
  | cons fx rest ih =>
    intro anchor
    by_cases hsame : fx.type = anchor.type
    · by_cases htop : fx.type = FXType.top
      · by_cases hmore : fx.high > anchor.high
        · have hrep : biLoop anchor (fx :: rest) = biLoop fx rest := by
            simp only [biLoop]
            rw [if_pos hsame, if_pos htop, if_pos hmore]
          rw [hrep]
          refine ⟨(ih fx).1, fun b hb => ?_⟩
          refine ancDesc_trans ?_ ((ih fx).2 b hb)
          exact ⟨hsame, fun _ => le_of_lt hmore,
            fun hbot => absurd (hsame ▸ htop) (by rw [hbot]; decide)⟩
        · have hrep : biLoop anchor (fx :: rest) = biLoop anchor rest := by
            simp only [biLoop]
            rw [if_pos hsame, if_pos htop, if_neg hmore]
          rw [hrep]; exact ih anchor
      · by_cases hmore : fx.low < anchor.low
        · have hrep : biLoop anchor (fx :: rest) = biLoop fx rest := by
            simp only [biLoop]
            rw [if_pos hsame, if_neg htop, if_pos hmore]
          rw [hrep]
          refine ⟨(ih fx).1, fun b hb => ?_⟩
          refine ancDesc_trans ?_ ((ih fx).2 b hb)
          have hbot : fx.type = FXType.bottom := by
            cases hx : fx.type
            · exact absurd hx htop
            · rfl
          exact ⟨hsame, fun htp => absurd (hsame ▸ hbot) (by rw [htp]; decide),
            fun _ => le_of_lt hmore⟩
        · have hrep : biLoop anchor (fx :: rest) = biLoop anchor rest := by
            simp only [biLoop]
            rw [if_pos hsame, if_neg htop, if_neg hmore]
          rw [hrep]; exact ih anchor
    · by_cases hdist : fx.index - anchor.index < 4
      · have hrep : biLoop anchor (fx :: rest) = biLoop anchor rest := by
          simp only [biLoop]
          rw [if_neg hsame, if_pos hdist]
        rw [hrep]; exact ih anchor
      · by_cases hup : anchor.type = FXType.bottom ∧ fx.type = FXType.top
        · by_cases hfail : fx.high ≤ anchor.low
          · have hrep : biLoop anchor (fx :: rest) = biLoop anchor rest := by
              simp only [biLoop]
              rw [if_neg hsame, if_neg hdist, if_pos hup, if_pos hfail]
            rw [hrep]; exact ih anchor
          · have hrep : biLoop anchor (fx :: rest) =
                ⟨anchor, fx, Trend.up⟩ :: biLoop fx rest := by
              simp only [biLoop]
              rw [if_neg hsame, if_neg hdist, if_pos hup, if_neg hfail]
            rw [hrep]
            constructor
            · rw [List.chain'_cons']
              exact ⟨fun b hb => (ih fx).2 b hb, (ih fx).1⟩
            · intro b hb
              simp only [List.head?_cons, Option.some_inj] at hb
              rw [← hb]
              exact ancDesc_refl anchor
        · by_cases hdown : anchor.type = FXType.top ∧ fx.type = FXType.bottom
          · by_cases hfail : fx.low ≥ anchor.high
            · have hrep : biLoop anchor (fx :: rest) = biLoop anchor rest := by
                simp only [biLoop]
                rw [if_neg hsame, if_neg hdist, if_neg hup, if_pos hdown, if_pos hfail]
              rw [hrep]; exact ih anchor
            · have hrep : biLoop anchor (fx :: rest) =
                  ⟨anchor, fx, Trend.down⟩ :: biLoop fx rest := by
                simp only [biLoop]
                rw [if_neg hsame, if_neg hdist, if_neg hup, if_pos hdown, if_neg hfail]
              rw [hrep]
              constructor
              · rw [List.chain'_cons']
                exact ⟨fun b hb => (ih fx).2 b hb, (ih fx).1⟩
              · intro b hb
                simp only [List.head?_cons, Option.some_inj] at hb
                rw [← hb]
                exact ancDesc_refl anchor
          · have hrep : biLoop anchor (fx :: rest) = biLoop anchor rest := by
              simp only [biLoop]
              rw [if_neg hsame, if_neg hdist, if_neg hup, if_neg hdown]
            rw [hrep]; exact ih anchor

/-- Claim C3, amended.  In the Stroke Builder's output, stroke k+1's start
fractal always has the same kind as stroke k's end fractal and is at least
as extreme (a strictly more extreme same-kind fractal may have replaced the
anchor after stroke k was emitted, so equality of the two fractals need not
hold). -/
theorem find_bi_alternation (bars : List ChanBar) (fractals : List Fractal) (k : ℕ)
    (h : k + 1 < (find_bi bars fractals).length) :
    ancDesc ((find_bi bars fractals).get ⟨k, by omega⟩).end_fx
      ((find_bi bars fractals).get ⟨k + 1, h⟩).start_fx := by
  have hchain : List.Chain' (fun b1 b2 : Bi => ancDesc b1.end_fx b2.start_fx)
      (find_bi bars fractals) := by
    match fractals with
    | [] => exact List.chain'_nil
    | f0 :: rest => exact (biLoop_inv rest f0).1
  exact List.chain'_iff_get.mp hchain k (by omega)

/-- Concrete fractal sequence on which two consecutive strokes do not share
an endpoint: the anchor moves from the first top (high 20) to a higher top
(high 25) before the second stroke is emitted. -/
def exC3 : List Fractal :=
  [⟨FXType.bottom, 0, 10, 11, 10, 0⟩,
   ⟨FXType.top, 4, 20, 20, 19, 1⟩,
   ⟨FXType.top, 6, 25, 25, 24, 2⟩,
   ⟨FXType.bottom, 10, 5, 6, 5, 3⟩]

/-- Counterexample for C3: on `exC3` the Stroke Builder emits two strokes
whose shared endpoint is NOT shared — stroke 1's start fractal differs from
stroke 0's end fractal. -/
theorem find_bi_alternation_counterexample :
    (find_bi [] exC3).length = 2
    ∧ ((find_bi [] exC3).getD 1 ⟨⟨FXType.top, 0, 0, 0, 0, 0⟩,
        ⟨FXType.top, 0, 0, 0, 0, 0⟩, Trend.none⟩).start_fx ≠
      ((find_bi [] exC3).getD 0 ⟨⟨FXType.top, 0, 0, 0, 0, 0⟩,
        ⟨FXType.top, 0, 0, 0, 0, 0⟩, Trend.none⟩).end_fx := by
  constructor
  · rfl
  · decide

/-- Witness for C3 on the same concrete input: the amended link holds
between the two strokes. -/
theorem find_bi_alternation_witness :
    0 + 1 < (find_bi [] exC3).length ∧
      ancDesc ((find_bi [] exC3).get ⟨0, by decide⟩).end_fx
        ((find_bi [] exC3).get ⟨0 + 1, by decide⟩).start_fx :=
  ⟨by decide, find_bi_alternation [] exC3 0 (by decide)⟩

/-- Default fractal for out-of-range list reads. -/
def dFractal : Fractal := ⟨FXType.top, 0, 0, 0, 0, 0⟩

/-- Default stroke for out-of-range list reads. -/
def dBi : Bi := ⟨dFractal, dFractal, Trend.none⟩

/-- Center (ZhongShu) from chan/center.py. -/
structure ZhongShu where
  start_bi_index : ℕ
  end_bi_index : ℕ
  zg : ℚ
  zd : ℚ
  direction : Trend
  level : ℕ
deriving DecidableEq, Repr

/-- `zg = min(High1, High2, High3)` of the three candidate strokes starting
at `i` (chan/center.py line 50). -/
def zsZg (bis : List Bi) (i : ℕ) : ℚ :=
  min (min (bis.getD i dBi).high ((bis.getD (i + 1) dBi).high)) ((bis.getD (i + 2) dBi).high)

/-- `zd = max(Low1, Low2, Low3)` of the three candidate strokes starting
at `i` (chan/center.py line 51). -/
def zsZd (bis : List Bi) (i : ℕ) : ℚ :=
  max (max (bis.getD i dBi).low ((bis.getD (i + 1) dBi).low)) ((bis.getD (i + 2) dBi).low)

/-- Extension loop of `find_zhongshu` (chan/center.py lines 66-80): starting
at stroke `j`, keep absorbing while the stroke's range overlaps `[zd, zg]`;
return the index of the first non-overlapping stroke (or the length).  The
fuel argument (always called with `bis.length`) bounds the iterations; `j`
strictly increases, so that much fuel always suffices. -/
def extendLoop (bis : List Bi) (zd zg : ℚ) : ℕ → ℕ → ℕ
  | 0, j => j
  | fuel + 1, j =>
    if j < bis.length then
      (if (bis.getD j dBi).high < zd ∨ (bis.getD j dBi).low > zg then j
       else extendLoop bis zd zg fuel (j + 1))
    else j

/-- Outer scan of `find_zhongshu` (chan/center.py lines 37-86): try the
three strokes at `i`; on a valid overlap open a center, extend it greedily,
and resume at the stroke that broke the overlap; otherwise advance by one.
The fuel (always `bis.length`) bounds the iterations of the source's while
loop, whose index strictly increases. -/
def zsLoop (bis : List Bi) : ℕ → ℕ → List ZhongShu
  | 0, _ => []
  | fuel + 1, i =>
    if i + 3 ≤ bis.length then
      (if zsZg bis i > zsZd bis i then
        ⟨i, extendLoop bis (zsZd bis i) (zsZg bis i) bis.length (i + 3) - 1,
          zsZg bis i, zsZd bis i, (bis.getD i dBi).direction, 0⟩ ::
          zsLoop bis fuel (extendLoop bis (zsZd bis i) (zsZg bis i) bis.length (i + 3))
      else zsLoop bis fuel (i + 1))
    else []

/-- `find_zhongshu` from chan/center.py: fewer than 3 strokes yield no
center. -/
def find_zhongshu (bis : List Bi) : List ZhongShu :=
  if bis.length < 3 then [] else zsLoop bis bis.length 0

/-- The extension loop never moves backwards. -/
theorem extendLoop_ge (bis : List Bi) (zd zg : ℚ) :
    ∀ (fuel j : ℕ), j ≤ extendLoop bis zd zg fuel j := by
  intro fuel
  induction fuel with
  | zero => intro j; exact le_refl j
  | succ n ih =>
    intro j
    simp only [extendLoop]
    split_ifs with h1 h2
    · exact le_refl j
    · exact le_trans (Nat.le_succ j) (ih (j + 1))
    · exact le_refl j

/-- The extension loop never runs past the end of the stroke list. -/
theorem extendLoop_le (bis : List Bi) (zd zg : ℚ) :
    ∀ (fuel j : ℕ), j ≤ bis.length → extendLoop bis zd zg fuel j ≤ bis.length := by
  intro fuel
  induction fuel with
  | zero => intro j hj; exact hj
  | succ n ih =>
    intro j hj
    simp only [extendLoop]
    split_ifs with h1 h2
    · exact hj
    · exact ih (j + 1) h1
    · exact hj

/-- Every stroke passed over by the extension loop overlaps `[zd, zg]`. -/
theorem extendLoop_overlap (bis : List Bi) (zd zg : ℚ) :
    ∀ (fuel j k : ℕ), j ≤ k → k < extendLoop bis zd zg fuel j →
      k < bis.length ∧ ¬ ((bis.getD k dBi).high < zd ∨ (bis.getD k dBi).low > zg) := by
  intro fuel
  induction fuel with
  | zero => intro j k hjk hk; simp only [extendLoop] at hk; omega
  | succ n ih =>
    intro j k hjk hk
    simp only [extendLoop] at hk
    split_ifs at hk with h1 h2
    · exact absurd hk (by omega)
    · rcases Nat.eq_or_lt_of_le hjk with heq | hlt
      · subst heq; exact ⟨h1, h2⟩
      · exact ih (j + 1) k hlt hk
    · exact absurd hk (by omega)

/-- If the extension loop stops strictly inside the list (given enough
fuel), the stroke it stops at does not overlap `[zd, zg]`. -/
theorem extendLoop_stop (bis : List Bi) (zd zg : ℚ) :
    ∀ (fuel j : ℕ), bis.length ≤ fuel + j →
      extendLoop bis zd zg fuel j < bis.length →
      ((bis.getD (extendLoop bis zd zg fuel j) dBi).high < zd ∨
       (bis.getD (extendLoop bis zd zg fuel j) dBi).low > zg) := by
  intro fuel
  induction fuel with
  | zero => intro j hfuel hlt; simp only [extendLoop] at hlt; omega
  | succ n ih =>
    intro j hfuel hlt
    simp only [extendLoop] at hlt ⊢
    split_ifs at hlt ⊢ with h1 h2
    · exact h2
    · exact ih (j + 1) (by omega) hlt
    · exact absurd hlt (by omega)

/-- Invariants of every center produced by the outer scan. -/
theorem zsLoop_mem (bis : List Bi) :
    ∀ (fuel i : ℕ) (zs : ZhongShu), zs ∈ zsLoop bis fuel i →
      zs.zd < zs.zg
      ∧ zs.start_bi_index + 2 ≤ zs.end_bi_index
      ∧ zs.end_bi_index < bis.length
      ∧ (∀ k, zs.start_bi_index + 3 ≤ k → k ≤ zs.end_bi_index →
          ¬ ((bis.getD k dBi).high < zs.zd ∨ (bis.getD k dBi).low > zs.zg))
      ∧ (zs.end_bi_index + 1 < bis.length →
          ((bis.getD (zs.end_bi_index + 1) dBi).high < zs.zd ∨
           (bis.getD (zs.end_bi_index + 1) dBi).low > zs.zg)) := by
  intro fuel
  induction fuel with
  | zero => intro i zs h; exact absurd h (List.not_mem_nil zs)
  | succ n ih =>
    intro i zs hmem
    simp only [zsLoop] at hmem
    split_ifs at hmem with h1 h2
    · rw [List.mem_cons] at hmem
      rcases hmem with heq | hrec
      · subst heq
        have hge := extendLoop_ge bis (zsZd bis i) (zsZg bis i) bis.length (i + 3)
        have hle := extendLoop_le bis (zsZd bis i) (zsZg bis i) bis.length (i + 3) h1
        dsimp only
        refine ⟨h2, by omega, by omega, ?_, ?_⟩
        · intro k hk1 hk2
          exact (extendLoop_overlap bis (zsZd bis i) (zsZg bis i) bis.length (i + 3) k
            (by omega) (by omega)).2
        · intro hlt
          have hj1 : extendLoop bis (zsZd bis i) (zsZg bis i) bis.length (i + 3) - 1 + 1 =
              extendLoop bis (zsZd bis i) (zsZg bis i) bis.length (i + 3) := by omega
          rw [hj1] at hlt ⊢
          exact extendLoop_stop bis (zsZd bis i) (zsZg bis i) bis.length (i + 3)
            (by omega) hlt
      · exact ih _ zs hrec
    · exact ih _ zs hmem
    · exact absurd hmem (List.not_mem_nil zs)

/-- Helper to build the example strokes of C7: a stroke whose two fractals
share the given high/low. -/
def mkBi (h l : ℚ) (s e : FXType) : Bi := ⟨⟨s, 0, l, h, l, 0⟩, ⟨e, 4, h, h, l, 0⟩, Trend.none⟩

/-- The spec's example strokes: highs [110,108,112,95], lows
[100,103,101,90]. -/
def exC7 : List Bi :=
  [mkBi 110 100 FXType.bottom FXType.top,
   mkBi 108 103 FXType.top FXType.bottom,
   mkBi 112 101 FXType.bottom FXType.top,
   mkBi 95 90 FXType.top FXType.bottom]

/-- Claim C7: every emitted Center has zg > zd strictly and spans at least 3
strokes; every absorbed stroke overlaps `[zd, zg]` and extension stops at the
first non-overlapping stroke.  On the spec's example (highs [110,108,112],
lows [100,103,101] and a fourth stroke 90-95) the single Center is
zg=108, zd=103 built from the first three strokes only. -/
theorem find_zhongshu_valid :
    (∀ (bis : List Bi) (zs : ZhongShu), zs ∈ find_zhongshu bis →
      zs.zd < zs.zg
      ∧ zs.start_bi_index + 2 ≤ zs.end_bi_index
      ∧ zs.end_bi_index < bis.length
      ∧ (∀ k, zs.start_bi_index + 3 ≤ k → k ≤ zs.end_bi_index →
          ¬ ((bis.getD k dBi).high < zs.zd ∨ (bis.getD k dBi).low > zs.zg))
      ∧ (zs.end_bi_index + 1 < bis.length →
          ((bis.getD (zs.end_bi_index + 1) dBi).high < zs.zd ∨
           (bis.getD (zs.end_bi_index + 1) dBi).low > zs.zg)))
    ∧ find_zhongshu exC7 = [⟨0, 2, 108, 103, Trend.up, 0⟩] := by
  constructor
  · intro bis zs hmem
    unfold find_zhongshu at hmem
    split_ifs at hmem with hlen
    · exact absurd hmem (List.not_mem_nil zs)
    · exact zsLoop_mem bis bis.length 0 zs hmem
  · decide

/-- Witness for C7: the example center is a member and satisfies the
validity bound. -/
theorem find_zhongshu_valid_witness :
    (⟨0, 2, 108, 103, Trend.up, 0⟩ : ZhongShu) ∈ find_zhongshu exC7 ∧
      (⟨0, 2, 108, 103, Trend.up, 0⟩ : ZhongShu).zd <
        (⟨0, 2, 108, 103, Trend.up, 0⟩ : ZhongShu).zg :=
  ⟨by decide, (find_zhongshu_valid.1 exC7 ⟨0, 2, 108, 103, Trend.up, 0⟩ (by decide)).1⟩

/-- Stroke record of strategy/chan_core.py `Bi`.  `direction` is the string
tag used by the source ("up"/"down"); `macdSum`/`diffPeak` model the
`macd_data` dict (keys "sum"/"diff_peak"), which the pipeline always
populates for every stroke it builds. -/
structure SBi where
  id : ℕ
  direction : String
  start_price : ℚ
  end_price : ℚ
  start_time : ℚ
  end_time : ℚ
  high : ℚ
  low : ℚ
  bars : ℕ
  macdSum : ℚ
  diffPeak : ℚ
  volumeSum : ℚ
deriving DecidableEq, Repr

/-- Center record of strategy/chan_core.py `Zhongshu` (ZG/ZD overlap bounds,
GG/DD absorbed extremes, constituent strokes). -/
structure SZhongshu where
  ZG : ℚ
  ZD : ℚ
  GG : ℚ
  DD : ℚ
  start_time : ℚ
  end_time : ℚ
  biList : List SBi
deriving DecidableEq, Repr

/-- Signal record of strategy/chan_core.py `Signal` (fields used by the
detectors; the related center and extra info are attached later by the
caller and never read back by the claims' code paths). -/
structure SSignal where
  type : String
  price : ℚ
  time : ℚ
  score : ℚ
  bi : Option SBi
deriving DecidableEq, Repr

/-- Detection context dict passed to the detectors (keys zhongshu_list,
bi_list, signals). -/
structure Ctx where
  zhongshu_list : List SZhongshu
  bi_list : List SBi
  signals : List SSignal
deriving Repr

/-- Default center for out-of-range reads. -/
def dSZhongshu : SZhongshu := ⟨0, 0, 0, 0, 0, 0, []⟩

/-- Configuration of `FirstClassSignalDetector` (trend center count and the
MACD divergence threshold, defaults 2 and 0.3). -/
structure FCConfig where
  trendZsCount : ℕ
  threshold : ℚ

/-- The detector's default configuration. -/
def defaultFCConfig : FCConfig := ⟨2, 3 / 10⟩

/-- `_is_down_trend` (first_class_signal.py lines 103-123): needs at least
`trendZsCount` centers and the last center's DD strictly below the previous
one's. -/
def is_down_trend (cfg : FCConfig) (ctx : Ctx) : Bool :=
  let zs := ctx.zhongshu_list
  if zs.length < cfg.trendZsCount then false
  else if (zs.getD (zs.length - 1) dSZhongshu).DD ≥ (zs.getD (zs.length - 2) dSZhongshu).DD
    then false
  else true

/-- `_is_new_low` (first_class_signal.py lines 140-149): the stroke's low is
strictly below the last center's DD. -/
def is_new_low (bi : SBi) (ctx : Ctx) : Bool :=
  if ctx.zhongshu_list.isEmpty then false
  else if bi.low < (ctx.zhongshu_list.getD (ctx.zhongshu_list.length - 1) dSZhongshu).DD
    then true else false

/-- `_find_enter_bi` (first_class_signal.py lines 189-220): the stroke just
before the last center's first stroke, located by id in the context's stroke
list (first match, as the source loop breaks on the first hit). -/
def find_enter_bi (ctx : Ctx) : Option SBi :=
  match ctx.zhongshu_list with
  | [] => Option.none
  | _ =>
    match (ctx.zhongshu_list.getD (ctx.zhongshu_list.length - 1) dSZhongshu).biList with
    | [] => Option.none
    | fb :: _ =>
      match ctx.bi_list.findIdx? (fun b => b.id == fb.id) with
      | Option.none => Option.none
      | some idx =>
        if idx > 0 then some (ctx.bi_list.getD (idx - 1) ⟨0, "", 0, 0, 0, 0, 0, 0, 0, 0, 0, 0⟩)
        else Option.none

/-- `_check_macd_divergence` (first_class_signal.py lines 160-187): area
shrinkage below `1 - threshold` OR diff-peak shrinkage below
`1 - threshold/2`. -/
def check_macd_divergence (cfg : FCConfig) (bi : SBi) (ctx : Ctx) : Bool :=
  match find_enter_bi ctx with
  | Option.none => false
  | some enter =>
    decide (bi.macdSum < enter.macdSum * (1 - cfg.threshold)) ||
      decide (bi.diffPeak < enter.diffPeak * (1 - cfg.threshold / 2))

/-- `_trend_strength` (first_class_signal.py lines 271-280). -/
def trend_strength (ctx : Ctx) : ℚ :=
  let c := ctx.zhongshu_list.length
  if 3 ≤ c then 1 else if c = 2 then 4 / 5 else 1 / 2

/-- `_divergence_level` (first_class_signal.py lines 282-305). -/
def divergence_level (bi : SBi) (ctx : Ctx) : ℚ :=
  match find_enter_bi ctx with
  | Option.none => 1 / 2
  | some enter =>
    if enter.macdSum = 0 then 0
    else
      if bi.macdSum / enter.macdSum ≥ 1 then 0
      else min 1 ((1 - bi.macdSum / enter.macdSum) * (12 / 10))

/-- `_volume_confirmation` (first_class_signal.py lines 307-324). -/
def volume_confirmation (bi : SBi) (ctx : Ctx) : ℚ :=
  match find_enter_bi ctx with
  | Option.none => 1 / 2
  | some enter =>
    if enter.volumeSum = 0 then 1 / 2
    else
      if bi.volumeSum / enter.volumeSum < 4 / 5 then 1
      else if bi.volumeSum / enter.volumeSum < 1 then 7 / 10
      else 3 / 10

/-- `_calculate_1B_score` (first_class_signal.py lines 244-264); the
multi-level resonance placeholder contributes 0.5 × 10 = 5. -/
def calc_1B_score (bi : SBi) (ctx : Ctx) : ℚ :=
  min (min 30 (trend_strength ctx * 30) + divergence_level bi ctx * 40 +
    volume_confirmation bi ctx * 20 + (1 / 2) * 10) 100

/-- `detect_1B` (first_class_signal.py lines 18-60): guard chain — down
stroke, down trend, new low, MACD divergence, fractal confirmation (always
true), then emit iff the score reaches 60. -/
def detect_1B (cfg : FCConfig) (bi : SBi) (ctx : Ctx) : Option SSignal :=
  if bi.direction = "down" then
    (if is_down_trend cfg ctx then
      (if is_new_low bi ctx then
        (if check_macd_divergence cfg bi ctx then
          (if calc_1B_score bi ctx ≥ 60 then
            some ⟨"1B", bi.end_price, bi.end_time, calc_1B_score bi ctx, some bi⟩
          else Option.none)
        else Option.none)
      else Option.none)
    else Option.none)
  else Option.none

/-- Claim C1, amended.  A 1B signal is emitted only if the stroke's low is
strictly below the active (last) Center's DD — its lowest absorbed low, which
never exceeds zd — AND the divergence test passes, which is a disjunction:
momentum-area shrinkage below 0.7 × the enter stroke's area OR diff-peak
shrinkage below 0.85 × the enter stroke's peak.  Failing the area condition
alone does not block the signal. -/
theorem detect_1B_only_if (bi : SBi) (ctx : Ctx) (sig : SSignal)
    (h : detect_1B defaultFCConfig bi ctx = some sig) :
    ctx.zhongshu_list ≠ []
    ∧ bi.low < (ctx.zhongshu_list.getD (ctx.zhongshu_list.length - 1) dSZhongshu).DD
    ∧ ∃ enter, find_enter_bi ctx = some enter ∧
        (bi.macdSum < enter.macdSum * (7 / 10) ∨
         bi.diffPeak < enter.diffPeak * (17 / 20)) := by
  unfold detect_1B at h
  split_ifs at h with h1 h2 h3 h4 h5
  · unfold is_new_low at h3
    split_ifs at h3 with hemp hlow
    · refine ⟨by simpa [List.isEmpty_iff] using hemp, hlow, ?_⟩
      unfold check_macd_divergence at h4
      cases henter : find_enter_bi ctx with
      | none => rw [henter] at h4; simp at h4
      | some enter =>
        rw [henter] at h4
        simp only [Bool.or_eq_true, decide_eq_true_eq] at h4
        have e1 : (1 : ℚ) - defaultFCConfig.threshold = 7 / 10 := by
          norm_num [defaultFCConfig]
        have e2 : (1 : ℚ) - defaultFCConfig.threshold / 2 = 17 / 20 := by
          norm_num [defaultFCConfig]
        rw [e1, e2] at h4
        exact ⟨enter, rfl, h4⟩

/-- Enter stroke of the C1 counterexample: MACD area 100, diff peak 10,
volume 100. -/
def exEnter1 : SBi := ⟨1, "up", 0, 0, 0, 0, 0, 0, 0, 100, 10, 100⟩

/-- First stroke of the last center in the C1 counterexample. -/
def exB2C1 : SBi := ⟨2, "down", 0, 0, 0, 0, 0, 0, 0, 0, 0, 0⟩

/-- Candidate down stroke of the C1 counterexample: low 40, MACD area 75
(only 25% shrinkage, failing the 30% area test), diff peak 5 (passing the
peak test). -/
def exBi1 : SBi := ⟨3, "down", 60, 40, 2, 3, 60, 40, 5, 75, 5, 50⟩

/-- Three descending centers (DD 70, 60, 50) forming the down-trend context
of the C1 counterexample; the last center's first stroke is `exB2C1`. -/
def exCtx1 : Ctx :=
  ⟨[⟨0, 0, 0, 70, 0, 0, []⟩, ⟨0, 0, 0, 60, 0, 0, []⟩,
    ⟨108, 55, 110, 50, 0, 0, [exB2C1]⟩],
   [exEnter1, exB2C1, exBi1], []⟩

/-- On the C1 example context the enter stroke is found. -/
theorem exC1_enter : find_enter_bi exCtx1 = some exEnter1 := by rfl

/-- The C1 example context is a down trend. -/
theorem exC1_idt : is_down_trend defaultFCConfig exCtx1 = true := by decide

/-- The C1 example stroke makes a new low. -/
theorem exC1_inl : is_new_low exBi1 exCtx1 = true := by decide

/-- The divergence test passes on the C1 example — via the diff-peak
disjunct only. -/
theorem exC1_div : check_macd_divergence defaultFCConfig exBi1 exCtx1 = true := by
  unfold check_macd_divergence
  rw [exC1_enter]
  simp only [Bool.or_eq_true, decide_eq_true_eq]
  right
  norm_num [exBi1, exEnter1, defaultFCConfig]

/-- The 1B score of the C1 example evaluates to 67. -/
theorem exC1_score : calc_1B_score exBi1 exCtx1 = 67 := by
  unfold calc_1B_score trend_strength divergence_level volume_confirmation
  rw [exC1_enter]
  norm_num [exBi1, exEnter1, exCtx1, min_def]

/-- The 1B detector fires on the C1 example. -/
theorem exC1_eval :
    detect_1B defaultFCConfig exBi1 exCtx1 = some ⟨"1B", 40, 3, 67, some exBi1⟩ := by
  unfold detect_1B
  rw [exC1_idt, exC1_inl, exC1_div, exC1_score]
  norm_num [exBi1]

/-- Counterexample for C1: on `exCtx1` a 1B signal IS emitted although the
stroke's momentum area (75) is NOT below 0.7 × the enter stroke's area
(70) — the diff-peak disjunct alone lets the divergence test pass. -/
theorem detect_1B_counterexample :
    detect_1B defaultFCConfig exBi1 exCtx1 = some ⟨"1B", 40, 3, 67, some exBi1⟩
    ∧ find_enter_bi exCtx1 = some exEnter1
    ∧ ¬ (exBi1.macdSum < exEnter1.macdSum * (7 / 10)) :=
  ⟨exC1_eval, exC1_enter, by norm_num [exBi1, exEnter1]⟩

/-- Witness for C1 at the same concrete input. -/
theorem detect_1B_only_if_witness :
    detect_1B defaultFCConfig exBi1 exCtx1 = some ⟨"1B", 40, 3, 67, some exBi1⟩
    ∧ (exCtx1.zhongshu_list ≠ []
      ∧ exBi1.low <
          (exCtx1.zhongshu_list.getD (exCtx1.zhongshu_list.length - 1) dSZhongshu).DD
      ∧ ∃ enter, find_enter_bi exCtx1 = some enter ∧
          (exBi1.macdSum < enter.macdSum * (7 / 10) ∨
           exBi1.diffPeak < enter.diffPeak * (17 / 20))) :=
  ⟨exC1_eval, detect_1B_only_if exBi1 exCtx1 ⟨"1B", 40, 3, 67, some exBi1⟩ exC1_eval⟩

/-- `_get_last_confirmed_1B` (second_class_signal.py lines 100-107): most
recent signal tagged "1B". -/
def get_last_1B (ctx : Ctx) : Option SSignal :=
  ctx.signals.reverse.find? (fun s => s.type == "1B")

/-- `_get_last_confirmed_1S` (second_class_signal.py lines 109-115). -/
def get_last_1S (ctx : Ctx) : Option SSignal :=
  ctx.signals.reverse.find? (fun s => s.type == "1S")

/-- Index of the LAST stroke with the given id (the source loops over the
whole list updating the index on every match, without breaking). -/
def lastIdxOf (l : List SBi) (tid : ℕ) : Option ℕ :=
  l.enum.foldl (fun acc p => if p.2.id = tid then some p.1 else acc) Option.none

/-- `_is_first_pullback_after_1B` (second_class_signal.py lines 117-157):
the current stroke must sit exactly two strokes after the 1B stroke. -/
def is_first_pullback_2B (current : SBi) (last1B : SSignal) (ctx : Ctx) : Bool :=
  match last1B.bi with
  | Option.none => false
  | some lbi =>
    match lastIdxOf ctx.bi_list lbi.id, lastIdxOf ctx.bi_list current.id with
    | some i1, some ic =>
      if ic ≤ i1 then false else (if ic = i1 + 2 then true else false)
    | _, _ => false

/-- `_is_first_pullback_after_1S` (second_class_signal.py lines 159-185). -/
def is_first_pullback_2S (current : SBi) (last1S : SSignal) (ctx : Ctx) : Bool :=
  match last1S.bi with
  | Option.none => false
  | some lbi =>
    match lastIdxOf ctx.bi_list lbi.id, lastIdxOf ctx.bi_list current.id with
    | some i1, some ic =>
      if ic ≤ i1 then false else (if ic = i1 + 2 then true else false)
    | _, _ => false

/-- Inner loop of `_count_bars_since` (second_class_signal.py lines
286-315): once a stroke ending at `startT` is seen, accumulate bar counts
and stop after the stroke ending at `endT`. -/
def countGo (startT endT : ℚ) : List SBi → Bool → ℕ → ℕ
  | [], _, c => c
  | b :: rest, counting, c =>
    if b.end_time = startT then countGo startT endT rest true c
    else if counting then
      (if b.end_time = endT then c + b.bars
       else countGo startT endT rest counting (c + b.bars))
    else countGo startT endT rest counting c

/-- `_count_bars_since`: the fallback when nothing was counted is 5. -/
def count_bars_since (startT endT : ℚ) (ctx : Ctx) : ℕ :=
  if countGo startT endT ctx.bi_list false 0 > 0 then countGo startT endT ctx.bi_list false 0
  else 5

/-- `_calculate_pullback_ratio_2B` (second_class_signal.py lines 190-201). -/
def pullback_ratio_2B (current : SBi) (last1B : SSignal) : ℚ :=
  if current.start_price - last1B.price ≤ 0 then 0
  else (current.start_price - current.end_price) / (current.start_price - last1B.price)

/-- `_calculate_pullback_ratio_2S` (second_class_signal.py lines 203-214). -/
def pullback_ratio_2S (current : SBi) (last1S : SSignal) : ℚ :=
  if last1S.price - current.start_price ≤ 0 then 0
  else (current.end_price - current.start_price) / (last1S.price - current.start_price)

/-- `_calculate_2B_score` (second_class_signal.py lines 216-255); the volume
confirmation placeholder contributes 0.8 × 20 = 16. -/
def calc_2B_score (current : SBi) (last1B : SSignal) (ctx : Ctx) : ℚ :=
  min (last1B.score * (3 / 10)
    + (if 3 / 10 ≤ pullback_ratio_2B current last1B ∧ pullback_ratio_2B current last1B ≤ 6 / 10
        then 30
       else if 2 / 10 ≤ pullback_ratio_2B current last1B ∧ pullback_ratio_2B current last1B ≤ 7 / 10
        then 20
       else 10)
    + (if 3 ≤ count_bars_since last1B.time current.end_time ctx ∧
          count_bars_since last1B.time current.end_time ctx ≤ 10 then (20 : ℚ)
       else if 1 ≤ count_bars_since last1B.time current.end_time ctx ∧
          count_bars_since last1B.time current.end_time ctx ≤ 15 then 15
       else 5)
    + (8 / 10) * 20) 100

/-- `_calculate_2S_score` (second_class_signal.py lines 257-284). -/
def calc_2S_score (current : SBi) (last1S : SSignal) (ctx : Ctx) : ℚ :=
  min (last1S.score * (3 / 10)
    + (if 3 / 10 ≤ pullback_ratio_2S current last1S ∧ pullback_ratio_2S current last1S ≤ 6 / 10
        then 30
       else if 2 / 10 ≤ pullback_ratio_2S current last1S ∧ pullback_ratio_2S current last1S ≤ 7 / 10
        then 20
       else 10)
    + (if 3 ≤ count_bars_since last1S.time current.end_time ctx ∧
          count_bars_since last1S.time current.end_time ctx ≤ 10 then (20 : ℚ)
       else if 1 ≤ count_bars_since last1S.time current.end_time ctx ∧
          count_bars_since last1S.time current.end_time ctx ≤ 15 then 15
       else 5)
    + (8 / 10) * 20) 100

/-- `detect_2B` (second_class_signal.py lines 8-52): needs a prior 1B, a
down stroke exactly two strokes later, and a pullback low that does not fall
BELOW the 1B price (an exactly equal low passes, `current_bi.end_price <
last_1B.price` being the only rejection); emits iff the score reaches 60. -/
def detect_2B (current : SBi) (ctx : Ctx) : Option SSignal :=
  match get_last_1B ctx with
  | Option.none => Option.none
  | some l1b =>
    if current.direction = "down" then
      (if is_first_pullback_2B current l1b ctx then
        (if current.end_price < l1b.price then Option.none
         else
          (if calc_2B_score current l1b ctx ≥ 60 then
            some ⟨"2B", current.end_price, current.end_time, calc_2B_score current l1b ctx,
              some current⟩
           else Option.none))
       else Option.none)
    else Option.none

/-- `detect_2S` (second_class_signal.py lines 54-98), the mirrored logic. -/
def detect_2S (current : SBi) (ctx : Ctx) : Option SSignal :=
  match get_last_1S ctx with
  | Option.none => Option.none
  | some l1s =>
    if current.direction = "up" then
      (if is_first_pullback_2S current l1s ctx then
        (if current.end_price > l1s.price then Option.none
         else
          (if calc_2S_score current l1s ctx ≥ 60 then
            some ⟨"2S", current.end_price, current.end_time, calc_2S_score current l1s ctx,
              some current⟩
           else Option.none))
       else Option.none)
    else Option.none

/-- Claim C8, amended.  A 2B (resp. 2S) signal is emitted only if the
pullback stroke's ending low is NOT LOWER than (≥) the prior 1B extreme
price (resp. not higher than the prior 1S price); an exactly equal retest
still yields the signal — only a strict breach is rejected. -/
theorem detect_2_no_retest (bi : SBi) (ctx : Ctx) (sig : SSignal) :
    (detect_2B bi ctx = some sig →
      ∃ l1b, get_last_1B ctx = some l1b ∧ l1b.price ≤ bi.end_price)
    ∧ (detect_2S bi ctx = some sig →
      ∃ l1s, get_last_1S ctx = some l1s ∧ bi.end_price ≤ l1s.price) := by
  constructor
  · intro h
    unfold detect_2B at h
    cases hlast : get_last_1B ctx with
    | none => rw [hlast] at h; exact Option.noConfusion h
    | some l1b =>
      rw [hlast] at h
      dsimp only at h
      split_ifs at h with h1 h2 h3 h4
      exact ⟨l1b, rfl, not_lt.mp h3⟩
  · intro h
    unfold detect_2S at h
    cases hlast : get_last_1S ctx with
    | none => rw [hlast] at h; exact Option.noConfusion h
    | some l1s =>
      rw [hlast] at h
      dsimp only at h
      split_ifs at h with h1 h2 h3 h4
      exact ⟨l1s, rfl, not_lt.mp h3⟩

/-- 1B stroke of the C8 example (ends at time 1 at price 100). -/
def exB1C8 : SBi := ⟨1, "down", 110, 100, 0, 1, 110, 100, 2, 0, 0, 0⟩

/-- Up stroke between the 1B and the pullback (3 bars). -/
def exB2C8 : SBi := ⟨2, "up", 100, 110, 1, 2, 110, 100, 3, 0, 0, 0⟩

/-- Pullback stroke of the C8 example: its ending low is EXACTLY the 1B
price (100). -/
def exB3C8 : SBi := ⟨3, "down", 110, 100, 2, 3, 110, 100, 4, 0, 0, 0⟩

/-- Prior 1B signal at price 100, score 100. -/
def exS1C8 : SSignal := ⟨"1B", 100, 1, 100, some exB1C8⟩

/-- Context of the C8 example. -/
def exCtx8 : Ctx := ⟨[], [exB1C8, exB2C8, exB3C8], [exS1C8]⟩

/-- The last 1B of the C8 example is found. -/
theorem exC8_last : get_last_1B exCtx8 = some exS1C8 := by rfl

/-- The pullback-position test passes on the C8 example. -/
theorem exC8_pull : is_first_pullback_2B exB3C8 exS1C8 exCtx8 = true := by decide

/-- Seven bars elapse between the 1B and the pullback's end. -/
theorem exC8_count : count_bars_since exS1C8.time exB3C8.end_time exCtx8 = 7 := by decide

/-- The pullback retraces 100% of the rise. -/
theorem exC8_ratio : pullback_ratio_2B exB3C8 exS1C8 = 1 := by
  norm_num [pullback_ratio_2B, exB3C8, exS1C8]

/-- The 2B score of the C8 example evaluates to 76. -/
theorem exC8_score : calc_2B_score exB3C8 exS1C8 exCtx8 = 76 := by
  unfold calc_2B_score
  rw [exC8_ratio, exC8_count]
  norm_num [exS1C8, min_def]

/-- The 2B detector fires on the C8 example. -/
theorem exC8_eval :
    detect_2B exB3C8 exCtx8 = some ⟨"2B", 100, 3, 76, some exB3C8⟩ := by
  unfold detect_2B
  rw [exC8_last]
  dsimp only
  rw [exC8_pull, exC8_score]
  norm_num [exB3C8, exS1C8]

/-- Counterexample for C8: a 2B signal is emitted although the pullback's
ending low exactly equals the prior 1B extreme price (100 = 100, not
strictly higher). -/
theorem detect_2B_counterexample :
    detect_2B exB3C8 exCtx8 = some ⟨"2B", 100, 3, 76, some exB3C8⟩
    ∧ get_last_1B exCtx8 = some exS1C8
    ∧ ¬ (exS1C8.price < exB3C8.end_price) :=
  ⟨exC8_eval, exC8_last, by norm_num [exS1C8, exB3C8]⟩

/-- Witness for C8 at the same concrete input. -/
theorem detect_2_no_retest_witness :
    detect_2B exB3C8 exCtx8 = some ⟨"2B", 100, 3, 76, some exB3C8⟩
    ∧ ∃ l1b, get_last_1B exCtx8 = some l1b ∧ l1b.price ≤ exB3C8.end_price :=
  ⟨exC8_eval,
    (detect_2_no_retest exB3C8 exCtx8 ⟨"2B", 100, 3, 76, some exB3C8⟩).1 exC8_eval⟩

/-- Signal type tag of strategy/signal_scorer.py `SignalType` (values "1B",
"2B", "3B", "1S", "2S", "3S"). -/
inductive SignalType where
  | B1
  | B2
  | B3
  | S1
  | S2
  | S3
deriving DecidableEq, Repr

/-- `signal.signal_type.value.endswith("B")` of `_score_position`: exactly
the three buy tags end in "B". -/
def SignalType.isBuy : SignalType → Bool
  | SignalType.B1 => true
  | SignalType.B2 => true
  | SignalType.B3 => true
  | _ => false

/-- Feature record of strategy/signal_scorer.py `ScorableSignal` (the
fields the eight dimension scorers read; id, timestamp, price and meta are
never read by the scoring code). -/
structure ScorableSignal where
  signal_type : SignalType
  is_structure_complete : Bool
  structure_quality : ℚ
  divergence_score : ℚ
  volume : ℚ
  avg_volume : ℚ
  trend_duration : ℚ
  position_level : ℚ
  has_sub_level_structure : Bool
  momentum_val : ℚ
  is_fractal_confirmed : Bool
deriving DecidableEq, Repr

/-- The eight configured weights (config key "structure" is spelt
`structureW`, `structure` being reserved in Lean). -/
structure Weights where
  structureW : ℚ
  divergence : ℚ
  volume_price : ℚ
  time : ℚ
  position : ℚ
  sub_level : ℚ
  strength : ℚ
  confirmation : ℚ
deriving DecidableEq, Repr

/-- `_score_structure` (signal_scorer.py lines 127-135): 50 for the flag
plus half the quality metric. -/
def score_structure (s : ScorableSignal) : ℚ :=
  (if s.is_structure_complete then 50 else 0) + s.structure_quality * (1 / 2)

/-- `_score_divergence` (pass-through). -/
def score_divergence (s : ScorableSignal) : ℚ := s.divergence_score

/-- `_score_volume_price` (step function on the volume ratio). -/
def score_volume_price (s : ScorableSignal) : ℚ :=
  if s.avg_volume ≤ 0 then 50
  else if s.volume / s.avg_volume > 2 then 100
  else if s.volume / s.avg_volume > 3 / 2 then 80
  else if s.volume / s.avg_volume > 1 then 60
  else 40

/-- `_score_time` (step function on trend duration). -/
def score_time (s : ScorableSignal) : ℚ :=
  if s.trend_duration > 100 then 90 else if s.trend_duration > 50 then 70 else 50

/-- `_score_position` (inverted for buy signals). -/
def score_position (s : ScorableSignal) : ℚ :=
  if s.signal_type.isBuy then 100 - s.position_level else s.position_level

/-- `_score_sub_level` (binary). -/
def score_sub_level (s : ScorableSignal) : ℚ :=
  if s.has_sub_level_structure then 100 else 0

/-- `_score_strength` (pass-through). -/
def score_strength (s : ScorableSignal) : ℚ := s.momentum_val

/-- `_score_confirmation` (binary). -/
def score_confirmation (s : ScorableSignal) : ℚ :=
  if s.is_fractal_confirmed then 100 else 0

/-- The eight (weight, raw dimension score) pairs, in the source's
dictionary order (signal_scorer.py lines 83-92). -/
def dims (w : Weights) (s : ScorableSignal) : List (ℚ × ℚ) :=
  [(w.structureW, score_structure s),
   (w.divergence, score_divergence s),
   (w.volume_price, score_volume_price s),
   (w.time, score_time s),
   (w.position, score_position s),
   (w.sub_level, score_sub_level s),
   (w.strength, score_strength s),
   (w.confirmation, score_confirmation s)]

/-- Loop body of `calculate_score` (signal_scorer.py lines 94-104): only
strictly positive weights participate; each used score is clamped to
[0, 100] and accumulated weighted, alongside the total used weight. -/
def scoreStep (acc : ℚ × ℚ) (p : ℚ × ℚ) : ℚ × ℚ :=
  if p.1 > 0 then (acc.1 + max 0 (min 100 p.2) * p.1, acc.2 + p.1) else acc

/-- Python's `round(x, 2)` modelled exactly on rationals: round half to
even at two decimals. -/
def round2 (q : ℚ) : ℚ :=
  if q * 100 - (Int.floor (q * 100) : ℚ) < 1 / 2 then ((Int.floor (q * 100) : ℤ) : ℚ) / 100
  else if (1 : ℚ) / 2 < q * 100 - (Int.floor (q * 100) : ℚ) then
    ((Int.floor (q * 100) + 1 : ℤ) : ℚ) / 100
  else if Int.floor (q * 100) % 2 = 0 then ((Int.floor (q * 100) : ℤ) : ℚ) / 100
  else ((Int.floor (q * 100) + 1 : ℤ) : ℚ) / 100

/-- `calculate_score` (signal_scorer.py lines 73-114): the final score is
the used-weight average — total weighted score divided by the TOTAL USED
WEIGHT (not by 100) — rounded to two decimals, and 0 when no weight is
used. -/
def calculate_score (w : Weights) (s : ScorableSignal) : ℚ :=
  round2 (if ((dims w s).foldl scoreStep (0, 0)).2 > 0
    then ((dims w s).foldl scoreStep (0, 0)).1 / ((dims w s).foldl scoreStep (0, 0)).2
    else 0)

/-- Sum of the eight configured weights. -/
def sumW (w : Weights) : ℚ :=
  w.structureW + w.divergence + w.volume_price + w.time + w.position +
    w.sub_level + w.strength + w.confirmation

/-- `ScorerConfig.validate_weights` (config/settings.py lines 37-43):
accepts iff the sum is within 0.01 of 100 (raises ValueError otherwise,
modelled as `false`). -/
def validate_weights (w : Weights) : Bool :=
  if |sumW w - 100| > 1 / 100 then false else true

/-- The clamped weighted sum over all eight dimensions. -/
def clampedWeightedSum (w : Weights) (s : ScorableSignal) : ℚ :=
  ((dims w s).map (fun p => max 0 (min 100 p.2) * p.1)).sum

/-- Modelled from the spec: the score as §4.6 words it — "combined as a
configured weighted average whose weights sum to 100", i.e. the clamped
weighted sum with divisor 100 (rounding as the implementation does).  Used
only to compare the implementation against the spec's divisor-100 claim. -/
def specScore (w : Weights) (s : ScorableSignal) : ℚ :=
  round2 (clampedWeightedSum w s / 100)

/-- The accumulator invariant of the scoring fold: the weighted total stays
between 0 and 100 × the used weight. -/
theorem scoreStep_inv (l : List (ℚ × ℚ)) :
    ∀ acc : ℚ × ℚ, 0 ≤ acc.1 → acc.1 ≤ 100 * acc.2 →
      0 ≤ (l.foldl scoreStep acc).1
      ∧ (l.foldl scoreStep acc).1 ≤ 100 * (l.foldl scoreStep acc).2 := by
  induction l with
  | nil => intro acc h1 h2; exact ⟨h1, h2⟩
  | cons p rest ih =>
    intro acc h1 h2
    rw [List.foldl_cons]
    by_cases hp : p.1 > 0
    · refine ih _ ?_ ?_
      · simp only [scoreStep, if_pos hp]
        have : (0 : ℚ) ≤ max 0 (min 100 p.2) * p.1 :=
          mul_nonneg (le_max_left 0 _) (le_of_lt hp)
        exact add_nonneg h1 this
      · simp only [scoreStep, if_pos hp]
        have hle : max 0 (min 100 p.2) ≤ 100 := by
          rcases le_total 0 (min 100 p.2) with hx | hx
          · rw [max_eq_right hx]; exact min_le_left _ _
          · rw [max_eq_left hx]; norm_num
        calc acc.1 + max 0 (min 100 p.2) * p.1
            ≤ 100 * acc.2 + 100 * p.1 := by
              have := mul_le_mul_of_nonneg_right hle (le_of_lt hp)
              linarith
          _ = 100 * (acc.2 + p.1) := by ring
    · simp only [scoreStep, if_neg hp]
      exact ih acc h1 h2

/-- `round2` maps [0, 100] into [0, 100]. -/
theorem round2_bounds {q : ℚ} (h0 : 0 ≤ q) (h1 : q ≤ 100) :
    0 ≤ round2 q ∧ round2 q ≤ 100 := by
  unfold round2
  have hf0 : (0 : ℤ) ≤ Int.floor (q * 100) := by
    rw [Int.le_floor]; push_cast; positivity
  have hf1 : Int.floor (q * 100) ≤ 10000 := by
    have : Int.floor (q * 100) ≤ Int.floor ((10000 : ℚ)) := by
      apply Int.floor_le_floor; linarith
    simpa using this
  have hfr0 : (0 : ℚ) ≤ q * 100 - (Int.floor (q * 100) : ℚ) := by
    have := Int.floor_le (q * 100); linarith
  split_ifs with ha hb hc
  · constructor
    · positivity
    · rw [div_le_iff₀ (by norm_num : (0:ℚ) < 100)]
      exact_mod_cast le_trans (by exact_mod_cast hf1) (by norm_num)
  · have hsmall : Int.floor (q * 100) + 1 ≤ 10000 := by
      by_contra hcon
      push_neg at hcon
      have hfe : Int.floor (q * 100) = 10000 := by omega
      rw [hfe] at hb
      have : q * 100 ≤ 10000 := by linarith
      push_cast at hb
      linarith
    constructor
    · positivity
    · rw [div_le_iff₀ (by norm_num : (0:ℚ) < 100)]
      exact_mod_cast le_trans (by exact_mod_cast hsmall) (by norm_num)
  · constructor
    · positivity
    · rw [div_le_iff₀ (by norm_num : (0:ℚ) < 100)]
      exact_mod_cast le_trans (by exact_mod_cast hf1) (by norm_num)
  · have htie : q * 100 - (Int.floor (q * 100) : ℚ) = 1 / 2 := le_antisymm (not_lt.mp hb) (not_lt.mp ha)
    have hsmall : Int.floor (q * 100) + 1 ≤ 10000 := by
      by_contra hcon
      push_neg at hcon
      have hfe : Int.floor (q * 100) = 10000 := by omega
      rw [hfe] at htie
      push_cast at htie
      linarith
    constructor
    · positivity
    · rw [div_le_iff₀ (by norm_num : (0:ℚ) < 100)]
      exact_mod_cast le_trans (by exact_mod_cast hsmall) (by norm_num)

/-- `round2` fixes integers. -/
theorem round2_intCast (n : ℤ) : round2 ((n : ℚ)) = (n : ℚ) := by
  unfold round2
  have h1 : (n : ℚ) * 100 = ((100 * n : ℤ) : ℚ) := by push_cast; ring
  rw [h1, Int.floor_intCast]
  rw [if_pos (by norm_num)]
  push_cast
  field_simp

/-- Claim C9, amended.  The combined score always lies in [0, 100] for
arbitrary weights and features; and when every weight except the structure
weight is zero (structure weight positive), the combined score equals the
structure-dimension score CLAMPED to [0, 100] and rounded to two decimals —
out-of-range structure features are clamped, so exact equality with the raw
structure score fails for them. -/
theorem scorer_bounds :
    (∀ (w : Weights) (s : ScorableSignal),
      0 ≤ calculate_score w s ∧ calculate_score w s ≤ 100)
    ∧ (∀ (w0 : ℚ) (s : ScorableSignal), 0 < w0 →
      calculate_score ⟨w0, 0, 0, 0, 0, 0, 0, 0⟩ s =
        round2 (max 0 (min 100 (score_structure s)))) := by
  constructor
  · intro w s
    unfold calculate_score
    have hinv := scoreStep_inv (dims w s) (0, 0) (le_refl 0) (by norm_num)
    by_cases hpos : ((dims w s).foldl scoreStep (0, 0)).2 > 0
    · rw [if_pos hpos]
      refine round2_bounds (div_nonneg hinv.1 (le_of_lt hpos)) ?_
      rw [div_le_iff₀ hpos]
      linarith [hinv.2]
    · rw [if_neg hpos]
      exact round2_bounds (le_refl 0) (by norm_num)
  · intro w0 s hw0
    unfold calculate_score
    have hfold : (dims ⟨w0, 0, 0, 0, 0, 0, 0, 0⟩ s).foldl scoreStep (0, 0) =
        (max 0 (min 100 (score_structure s)) * w0, w0) := by
      simp only [dims, List.foldl_cons, List.foldl_nil, scoreStep]
      rw [if_pos hw0]
      norm_num
    rw [hfold]
    dsimp only
    rw [if_pos hw0, mul_div_cancel_right₀ _ (ne_of_gt hw0)]

/-- Out-of-range structure features for the C9 counterexample: quality 200
gives a raw structure score of 150. -/
def exS9 : ScorableSignal := ⟨SignalType.B1, true, 200, 0, 0, 0, 0, 0, false, 0, false⟩

/-- Structure-only weights (20). -/
def w20 : Weights := ⟨20, 0, 0, 0, 0, 0, 0, 0⟩

/-- Counterexample for C9: with only the structure weight configured, the
combined score is 100 (clamped) while the structure-dimension score is 150 —
they are not equal for out-of-range inputs. -/
theorem scorer_structure_counterexample :
    calculate_score w20 exS9 = 100 ∧ score_structure exS9 = 150 ∧ (100 : ℚ) ≠ 150 := by
  refine ⟨?_, by norm_num [score_structure, exS9], by norm_num⟩
  unfold calculate_score
  have hfold : (dims w20 exS9).foldl scoreStep (0, 0) = (2000, 20) := by
    norm_num [dims, scoreStep, w20, exS9, score_structure, score_divergence,
      score_volume_price, score_time, score_position, score_sub_level,
      score_strength, score_confirmation, List.foldl, min_def, max_def, SignalType.isBuy]
  rw [hfold]
  have hval : (if ((2000 : ℚ), (20 : ℚ)).2 > 0
      then ((2000 : ℚ), (20 : ℚ)).1 / ((2000 : ℚ), (20 : ℚ)).2 else 0) = ((100 : ℤ) : ℚ) := by
    norm_num
  rw [hval, round2_intCast]
  norm_num

/-- In-range features for the C9 witness: raw structure score 80. -/
def exS9w : ScorableSignal := ⟨SignalType.B1, true, 60, 0, 0, 0, 0, 0, false, 0, false⟩

/-- Witness for C9 at a concrete positive structure weight. -/
theorem scorer_bounds_witness :
    (0 : ℚ) < 20 ∧
      calculate_score ⟨20, 0, 0, 0, 0, 0, 0, 0⟩ exS9w =
        round2 (max 0 (min 100 (score_structure exS9w))) :=
  ⟨by norm_num, scorer_bounds.2 20 exS9w (by norm_num)⟩

/-- With nonnegative weights the scoring fold is the plain clamped weighted
sum and the plain weight sum (zero-weight entries contribute nothing either
way). -/
theorem foldl_scoreStep_of_nonneg (l : List (ℚ × ℚ)) :
    ∀ acc : ℚ × ℚ, (∀ p ∈ l, 0 ≤ p.1) →
      l.foldl scoreStep acc =
        (acc.1 + (l.map (fun p => max 0 (min 100 p.2) * p.1)).sum,
         acc.2 + (l.map Prod.fst).sum) := by
  induction l with
  | nil => intro acc _; simp
  | cons p rest ih =>
    intro acc hnn
    rw [List.foldl_cons, ih _ (fun q hq => hnn q (List.mem_cons_of_mem p hq))]
    by_cases hp : p.1 > 0
    · simp only [scoreStep, if_pos hp, List.map_cons, List.sum_cons, Prod.ext_iff]
      constructor <;> ring
    · have hp0 : p.1 = 0 := le_antisymm (not_lt.mp hp) (hnn p (List.mem_cons_self p rest))
      simp only [scoreStep, if_neg hp, List.map_cons, List.sum_cons, hp0, mul_zero,
        lt_self_iff_false, ite_false, Prod.ext_iff]
      constructor <;> ring

/-- Claim C2, amended.  Configuration load accepts a weight set iff its sum
is within 0.01 of 100 (so sums like 100.005 load fine); and at score time
`SignalScorer.calculate_score` divides by the sum of the positive weights
actually used, which for a nonnegative weight set summing to 100 coincides
with the spec's divisor-100 weighted average — but a non-conforming weight
set IS effectively rescaled (normalized) by its own weight sum. -/
theorem weights_validation :
    (∀ w : Weights, validate_weights w = true ↔ |sumW w - 100| ≤ 1 / 100)
    ∧ (∀ (w : Weights) (s : ScorableSignal),
        0 ≤ w.structureW → 0 ≤ w.divergence → 0 ≤ w.volume_price → 0 ≤ w.time →
        0 ≤ w.position → 0 ≤ w.sub_level → 0 ≤ w.strength → 0 ≤ w.confirmation →
        sumW w = 100 → calculate_score w s = specScore w s) := by
  constructor
  · intro w
    unfold validate_weights
    split_ifs with h
    · constructor
      · intro hx; simp at hx
      · intro hx; exact absurd hx (not_le.mpr h)
    · constructor
      · intro _; exact not_lt.mp h
      · intro _; rfl
  · intro w s h1 h2 h3 h4 h5 h6 h7 h8 hsum
    unfold calculate_score specScore clampedWeightedSum
    have hnn : ∀ p ∈ dims w s, 0 ≤ p.1 := by
      intro p hp
      simp only [dims, List.mem_cons, List.not_mem_nil, or_false] at hp
      rcases hp with h | h | h | h | h | h | h | h <;> subst h <;> assumption
    rw [foldl_scoreStep_of_nonneg (dims w s) (0, 0) hnn]
    have hfst : ((dims w s).map Prod.fst).sum = sumW w := by
      simp only [dims, List.map_cons, List.map_nil, List.sum_cons, List.sum_nil, sumW]
      ring
    dsimp only
    rw [zero_add, zero_add, hfst, hsum]
    rw [if_pos (by norm_num : (100 : ℚ) > 0)]

/-- Weight set summing to 100.005 for the C2 counterexample. -/
def wTol : Weights := ⟨20 + 1 / 200, 20, 10, 10, 10, 10, 10, 10⟩

/-- Structure-only weights summing to 50. -/
def w50 : Weights := ⟨50, 0, 0, 0, 0, 0, 0, 0⟩

/-- In-range features whose structure score is 80. -/
def exS80 : ScorableSignal := ⟨SignalType.B1, true, 60, 0, 0, 0, 0, 0, false, 0, false⟩

/-- Counterexample for C2: (a) a weight set whose sum is 100.005 ≠ 100
passes validation (tolerance 0.01); (b) with weights summing to 50 the
score-time computation returns 80 — the weighted average over the USED
weight sum — while the spec's divisor-100 average would give 40: the
non-conforming set is silently rescaled at score time. -/
theorem scorer_config_counterexample :
    (validate_weights wTol = true ∧ sumW wTol ≠ 100)
    ∧ calculate_score w50 exS80 = 80
    ∧ specScore w50 exS80 = 40 := by
  refine ⟨⟨?_, ?_⟩, ?_, ?_⟩
  · norm_num [validate_weights, sumW, wTol, abs_of_nonneg]
  · norm_num [sumW, wTol]
  · unfold calculate_score
    have hfold : (dims w50 exS80).foldl scoreStep (0, 0) = (4000, 50) := by
      norm_num [dims, scoreStep, w50, exS80, score_structure, score_divergence,
        score_volume_price, score_time, score_position, score_sub_level,
        score_strength, score_confirmation, List.foldl, min_def, max_def, SignalType.isBuy]
    rw [hfold]
    have hval : (if ((4000 : ℚ), (50 : ℚ)).2 > 0
        then ((4000 : ℚ), (50 : ℚ)).1 / ((4000 : ℚ), (50 : ℚ)).2 else 0) = ((80 : ℤ) : ℚ) := by
      norm_num
    rw [hval, round2_intCast]
    norm_num
  · unfold specScore clampedWeightedSum
    have hsum : ((dims w50 exS80).map (fun p => max 0 (min 100 p.2) * p.1)).sum = 4000 := by
      norm_num [dims, w50, exS80, score_structure, score_divergence,
        score_volume_price, score_time, score_position, score_sub_level,
        score_strength, score_confirmation, min_def, max_def, SignalType.isBuy]
    rw [hsum]
    rw [show (4000 : ℚ) / 100 = ((40 : ℤ) : ℚ) by norm_num, round2_intCast]
    norm_num

/-- Conforming weight set for the C2 witness. -/
def w100 : Weights := ⟨20, 20, 10, 10, 10, 10, 10, 10⟩

/-- Witness for C2: on a nonnegative set summing to exactly 100 the score
equals the divisor-100 weighted average. -/
theorem weights_validation_witness :
    sumW w100 = 100 ∧ calculate_score w100 exS80 = specScore w100 exS80 :=
  ⟨by norm_num [sumW, w100],
    weights_validation.2 w100 exS80 (by norm_num [w100]) (by norm_num [w100])
      (by norm_num [w100]) (by norm_num [w100]) (by norm_num [w100])
      (by norm_num [w100]) (by norm_num [w100]) (by norm_num [w100])
      (by norm_num [sumW, w100])⟩
